import Mathlib

/-!
Verification of `spot_micro_kinematics`: forward and inverse kinematics of a
quadruped robot leg, leg-mount frame placement, and the body-pose-to-leg-target
mapper.  Python floats are embedded as real numbers; `math.sqrt` (which raises
`ValueError` on a negative argument) is embedded as an `Option`-valued square
root, and `math.atan2 y x` as the argument of the complex number `x + y*I`.
-/

namespace SpotMicro

open Real Matrix

noncomputable section

/-- Embedding of Python `math.atan2 y x`: the angle of the point `(x, y)` in
`(-π, π]`, with `atan2 0 0 = 0`, matching the C/Python convention. -/
def atan2 (y x : ℝ) : ℝ := Complex.arg ⟨x, y⟩

/-- Embedding of Python `math.sqrt`, which raises `ValueError` on a negative
argument: `none` signals the raised exception. -/
def sqrtE (x : ℝ) : Option ℝ := if x < 0 then none else some (Real.sqrt x)

/-- Modelled from the spec: the external `transformations` linear-algebra
module's `roty` (rotation-about-Y constructor), "standard trigonometric
rotation-matrix form" (spec 4.1); the module itself is not part of the
provided source. -/
def roty (θ : ℝ) : Matrix (Fin 3) (Fin 3) ℝ :=
  !![Real.cos θ, 0, Real.sin θ;
     0, 1, 0;
     -Real.sin θ, 0, Real.cos θ]

/-- Modelled from the spec: the external `transformations` module's `rotz`
(rotation-about-Z constructor), "standard trigonometric rotation-matrix form"
(spec 4.1). -/
def rotz (θ : ℝ) : Matrix (Fin 3) (Fin 3) ℝ :=
  !![Real.cos θ, -Real.sin θ, 0;
     Real.sin θ, Real.cos θ, 0;
     0, 0, 1]

/-- Embedding of `np.block([[R, t], [0,0,0,1]])` for a 3×3 block `R` and a
3×1 translation `t`, as used throughout the source to build homogeneous
transforms. -/
def npBlock (R : Matrix (Fin 3) (Fin 3) ℝ) (t : Fin 3 → ℝ) :
    Matrix (Fin 4) (Fin 4) ℝ :=
  !![R 0 0, R 0 1, R 0 2, t 0;
     R 1 0, R 1 1, R 1 2, t 1;
     R 2 0, R 2 1, R 2 2, t 2;
     0, 0, 0, 1]

/-- Modelled from the spec: the external `transformations` module's
`ht_inverse`, the exact rigid inverse "transpose rotation;
translation' = −Rᵗ·t" (spec 4.1). -/
def ht_inverse (T : Matrix (Fin 4) (Fin 4) ℝ) : Matrix (Fin 4) (Fin 4) ℝ :=
  !![T 0 0, T 1 0, T 2 0, -(T 0 0 * T 0 3 + T 1 0 * T 1 3 + T 2 0 * T 2 3);
     T 0 1, T 1 1, T 2 1, -(T 0 1 * T 0 3 + T 1 1 * T 1 3 + T 2 1 * T 2 3);
     T 0 2, T 1 2, T 2 2, -(T 0 2 * T 0 3 + T 1 2 * T 1 3 + T 2 2 * T 2 3);
     0, 0, 0, 1]

/-- `t_rightback t_m l w` from the source: mount frame of the right back leg,
`t_m @ np.block([[roty(pi/2), [-l/2, 0, w/2]], [0,0,0,1]])`. -/
def t_rightback (t_m : Matrix (Fin 4) (Fin 4) ℝ) (l w : ℝ) :
    Matrix (Fin 4) (Fin 4) ℝ :=
  t_m * npBlock (roty (Real.pi / 2)) ![-l / 2, 0, w / 2]

/-- `t_rightfront t_m l w` from the source: mount frame of the right front
leg. -/
def t_rightfront (t_m : Matrix (Fin 4) (Fin 4) ℝ) (l w : ℝ) :
    Matrix (Fin 4) (Fin 4) ℝ :=
  t_m * npBlock (roty (Real.pi / 2)) ![l / 2, 0, w / 2]

/-- `t_leftfront t_m l w` from the source: mount frame of the left front
leg. -/
def t_leftfront (t_m : Matrix (Fin 4) (Fin 4) ℝ) (l w : ℝ) :
    Matrix (Fin 4) (Fin 4) ℝ :=
  t_m * npBlock (roty (-(Real.pi / 2))) ![l / 2, 0, -w / 2]

/-- `t_leftback t_m l w` from the source: mount frame of the left back leg. -/
def t_leftback (t_m : Matrix (Fin 4) (Fin 4) ℝ) (l w : ℝ) :
    Matrix (Fin 4) (Fin 4) ℝ :=
  t_m * npBlock (roty (-(Real.pi / 2))) ![-l / 2, 0, -w / 2]

/-- `t_0_to_1 theta1 l1` from the source: hip transform,
`np.block([[rotz(theta1), [-l1*cos(theta1), -l1*sin(theta1), 0]], [0,0,0,1]])`. -/
def t_0_to_1 (theta1 l1 : ℝ) : Matrix (Fin 4) (Fin 4) ℝ :=
  npBlock (rotz theta1) ![-l1 * Real.cos theta1, -l1 * Real.sin theta1, 0]

/-- `t_1_to_2()` from the source: the fixed reorientation transform, written
as an explicit `np.array` literal there. -/
def t_1_to_2 : Matrix (Fin 4) (Fin 4) ℝ :=
  !![0, 0, -1, 0;
     -1, 0, 0, 0;
     0, 1, 0, 0;
     0, 0, 0, 1]

/-- `t_2_to_3 theta2 l2` from the source: upper-leg transform. -/
def t_2_to_3 (theta2 l2 : ℝ) : Matrix (Fin 4) (Fin 4) ℝ :=
  npBlock (rotz theta2) ![l2 * Real.cos theta2, l2 * Real.sin theta2, 0]

/-- `t_3_to_4 theta3 l3` from the source: lower-leg (knee) transform. -/
def t_3_to_4 (theta3 l3 : ℝ) : Matrix (Fin 4) (Fin 4) ℝ :=
  npBlock (rotz theta3) ![l3 * Real.cos theta3, l3 * Real.sin theta3, 0]

/-- `t_0_to_4` from the source: the composed forward-kinematics chain
`t_0_to_1 @ t_1_to_2 @ t_2_to_3 @ t_3_to_4`. -/
def t_0_to_4 (theta1 theta2 theta3 l1 l2 l3 : ℝ) : Matrix (Fin 4) (Fin 4) ℝ :=
  t_0_to_1 theta1 l1 * t_1_to_2 * t_2_to_3 theta2 l2 * t_3_to_4 theta3 l3

/-- `ikine x4 y4 z4 l1 l2 l3 legs12` from the source.  The two `math.sqrt`
calls raise on negative arguments, so the result is an `Option`: `none`
models the raised `ValueError`. -/
def ikine (x4 y4 z4 l1 l2 l3 : ℝ) (legs12 : Bool) : Option (ℝ × ℝ × ℝ) :=
  let D := (x4 ^ 2 + y4 ^ 2 + z4 ^ 2 - l1 ^ 2 - l2 ^ 2 - l3 ^ 2) / (2 * l2 * l3)
  if 1 - D ^ 2 < 0 then none
  else
    let q3 := if legs12 then atan2 (Real.sqrt (1 - D ^ 2)) D
              else atan2 (-Real.sqrt (1 - D ^ 2)) D
    if x4 ^ 2 + y4 ^ 2 - l1 ^ 2 < 0 then none
    else
      let q2 := atan2 z4 (Real.sqrt (x4 ^ 2 + y4 ^ 2 - l1 ^ 2)) -
                atan2 (l3 * Real.sin q3) (l2 + l3 * Real.cos q3)
      let q1 := atan2 y4 x4 + atan2 (Real.sqrt (x4 ^ 2 + y4 ^ 2 - l1 ^ 2)) (-l1)
      some (q1, q2, q3)

/-- `get_leg_delta_coords ht_body p4_coords l w` from the source.  The source
computes all four leg-mount transforms (assigning `t_leftback` to the
left-front variable and `t_leftfront` to the left-back variable), but then
transforms only the right-back foot target `p4_coords[0]` and returns that
single homogeneous 4-vector. -/
def get_leg_delta_coords (ht_body : Matrix (Fin 4) (Fin 4) ℝ)
    (p4_coords : (ℝ × ℝ × ℝ) × (ℝ × ℝ × ℝ) × (ℝ × ℝ × ℝ) × (ℝ × ℝ × ℝ))
    (l w : ℝ) : Fin 4 → ℝ :=
  let ht_rb_leg := t_rightback ht_body l w
  let rb_foot_p4_global_coords : Fin 4 → ℝ :=
    ![p4_coords.1.1, p4_coords.1.2.1, p4_coords.1.2.2, 1]
  let ht_rb_leg_inv := ht_inverse ht_rb_leg
  ht_rb_leg_inv.mulVec rb_foot_p4_global_coords

/-! ### Helper lemmas about `atan2` -/

theorem atan2_polar {r ψ : ℝ} (hr : 0 < r) (hψ : ψ ∈ Set.Ioc (-π) π) :
    atan2 (r * Real.sin ψ) (r * Real.cos ψ) = ψ := by
  have hz : (⟨r * Real.cos ψ, r * Real.sin ψ⟩ : ℂ) =
      (r : ℂ) * (Complex.cos ψ + Complex.sin ψ * Complex.I) := by
    apply Complex.ext <;>
      simp [Complex.cos_ofReal_re, Complex.sin_ofReal_re, Complex.cos_ofReal_im,
        Complex.sin_ofReal_im]
  rw [atan2, hz, Complex.arg_mul_cos_add_sin_mul_I hr hψ]

theorem atan2_sin_cos {ψ : ℝ} (hψ : ψ ∈ Set.Ioc (-π) π) :
    atan2 (Real.sin ψ) (Real.cos ψ) = ψ := by
  simpa using atan2_polar one_pos hψ

theorem complexAbs_mk (x y : ℝ) :
    Complex.abs ⟨x, y⟩ = Real.sqrt (x ^ 2 + y ^ 2) := by
  rw [Complex.abs_apply, Complex.normSq_mk]
  ring_nf

theorem cos_atan2 {x y : ℝ} (h : ¬(x = 0 ∧ y = 0)) :
    Real.cos (atan2 y x) = x / Real.sqrt (x ^ 2 + y ^ 2) := by
  have hz : (⟨x, y⟩ : ℂ) ≠ 0 := by
    intro hc
    exact h ⟨congrArg Complex.re hc, congrArg Complex.im hc⟩
  rw [atan2, Complex.cos_arg hz, complexAbs_mk]

theorem sin_atan2 (x y : ℝ) :
    Real.sin (atan2 y x) = y / Real.sqrt (x ^ 2 + y ^ 2) := by
  rw [atan2, Complex.sin_arg, complexAbs_mk]

theorem atan2_neg_left {y : ℝ} (x : ℝ) (hy : y ≠ 0) :
    atan2 (-y) x = -atan2 y x := by
  have hconj : (⟨x, -y⟩ : ℂ) = (starRingEnd ℂ) ⟨x, y⟩ := by
    apply Complex.ext <;> simp
  have hne : Complex.arg ⟨x, y⟩ ≠ π := by
    intro hc
    have h2 := Complex.arg_eq_pi_iff.mp hc
    simp only at h2
    exact hy h2.2
  rw [atan2, atan2, hconj, Complex.arg_conj, if_neg hne]

theorem atan2_mem_Ioc (y x : ℝ) : atan2 y x ∈ Set.Ioc (-π) π :=
  Complex.arg_mem_Ioc _

/-! ### The translation column of the forward-kinematics chain -/

theorem t_0_to_4_x (θ1 θ2 θ3 l1 l2 l3 : ℝ) :
    t_0_to_4 θ1 θ2 θ3 l1 l2 l3 0 3 =
      Real.sin θ1 * (l2 * Real.cos θ2 + l3 * Real.cos (θ2 + θ3)) -
        l1 * Real.cos θ1 := by
  simp [t_0_to_4, t_0_to_1, t_1_to_2, t_2_to_3, t_3_to_4, npBlock, rotz,
    Matrix.mul_apply, Fin.sum_univ_four, Real.cos_add, Real.sin_add]
  ring

theorem t_0_to_4_y (θ1 θ2 θ3 l1 l2 l3 : ℝ) :
    t_0_to_4 θ1 θ2 θ3 l1 l2 l3 1 3 =
      -(Real.cos θ1 * (l2 * Real.cos θ2 + l3 * Real.cos (θ2 + θ3))) -
        l1 * Real.sin θ1 := by
  simp [t_0_to_4, t_0_to_1, t_1_to_2, t_2_to_3, t_3_to_4, npBlock, rotz,
    Matrix.mul_apply, Fin.sum_univ_four, Real.cos_add, Real.sin_add]
  ring

theorem t_0_to_4_z (θ1 θ2 θ3 l1 l2 l3 : ℝ) :
    t_0_to_4 θ1 θ2 θ3 l1 l2 l3 2 3 =
      l2 * Real.sin θ2 + l3 * Real.sin (θ2 + θ3) := by
  simp [t_0_to_4, t_0_to_1, t_1_to_2, t_2_to_3, t_3_to_4, npBlock, rotz,
    Matrix.mul_apply, Fin.sum_univ_four, Real.cos_add, Real.sin_add]
  ring

/-! ### Algebraic identities used by the inverse-kinematics analysis -/

theorem planar_radius_sq (θ1 A l1 : ℝ) :
    (Real.sin θ1 * A - l1 * Real.cos θ1) ^ 2 +
      (-(Real.cos θ1 * A) - l1 * Real.sin θ1) ^ 2 = A ^ 2 + l1 ^ 2 := by
  linear_combination (A ^ 2 + l1 ^ 2) * Real.sin_sq_add_cos_sq θ1

theorem elbow_radius_sq (θ2 θ3 l2 l3 : ℝ) :
    (l2 * Real.cos θ2 + l3 * Real.cos (θ2 + θ3)) ^ 2 +
      (l2 * Real.sin θ2 + l3 * Real.sin (θ2 + θ3)) ^ 2 =
      l2 ^ 2 + l3 ^ 2 + 2 * l2 * l3 * Real.cos θ3 := by
  rw [Real.cos_add, Real.sin_add]
  linear_combination
    (l2 ^ 2 + l3 ^ 2 * (Real.sin θ3 ^ 2 + Real.cos θ3 ^ 2) +
        2 * l2 * l3 * Real.cos θ3) * Real.sin_sq_add_cos_sq θ2 +
      l3 ^ 2 * Real.sin_sq_add_cos_sq θ3

theorem atan2_two_link (θ2 θ3 l2 l3 A B : ℝ)
    (hAdef : A = Real.cos θ2 * (l2 + l3 * Real.cos θ3) -
      Real.sin θ2 * (l3 * Real.sin θ3))
    (hBdef : B = Real.sin θ2 * (l2 + l3 * Real.cos θ3) +
      Real.cos θ2 * (l3 * Real.sin θ3))
    (hApos : 0 < A)
    (hq2 : θ2 + atan2 (l3 * Real.sin θ3) (l2 + l3 * Real.cos θ3) ∈
      Set.Ioc (-π) π) :
    atan2 B A = θ2 + atan2 (l3 * Real.sin θ3) (l2 + l3 * Real.cos θ3) := by
  have hne : ¬(l2 + l3 * Real.cos θ3 = 0 ∧ l3 * Real.sin θ3 = 0) := by
    rintro ⟨h1, h2⟩
    rw [hAdef, h1, h2] at hApos
    norm_num at hApos
  have hρpos : 0 < Real.sqrt ((l2 + l3 * Real.cos θ3) ^ 2 +
      (l3 * Real.sin θ3) ^ 2) := by
    rcases not_and_or.mp hne with h | h
    · exact Real.sqrt_pos.mpr (lt_of_lt_of_le
        ((sq_nonneg _).lt_of_ne (Ne.symm (pow_ne_zero 2 h)))
        (le_add_of_nonneg_right (sq_nonneg _)))
    · exact Real.sqrt_pos.mpr (lt_of_lt_of_le
        ((sq_nonneg _).lt_of_ne (Ne.symm (pow_ne_zero 2 h)))
        (le_add_of_nonneg_left (sq_nonneg _)))
  have hρne := hρpos.ne'
  have hcos := cos_atan2 hne
  have hsin := sin_atan2 (l2 + l3 * Real.cos θ3) (l3 * Real.sin θ3)
  have hApolar : A = Real.sqrt ((l2 + l3 * Real.cos θ3) ^ 2 +
      (l3 * Real.sin θ3) ^ 2) *
      Real.cos (θ2 + atan2 (l3 * Real.sin θ3) (l2 + l3 * Real.cos θ3)) := by
    rw [Real.cos_add, hcos, hsin, hAdef]
    field_simp
  have hBpolar : B = Real.sqrt ((l2 + l3 * Real.cos θ3) ^ 2 +
      (l3 * Real.sin θ3) ^ 2) *
      Real.sin (θ2 + atan2 (l3 * Real.sin θ3) (l2 + l3 * Real.cos θ3)) := by
    rw [Real.sin_add, hcos, hsin, hBdef]
    field_simp
  rw [hApolar, hBpolar, atan2_polar hρpos hq2]

theorem atan2_hip (θ1 l1 A : ℝ) (hl1 : 0 < l1) (hApos : 0 < A)
    (hq1 : θ1 + atan2 (-A) (-l1) ∈ Set.Ioc (-π) π) :
    atan2 (-(Real.cos θ1 * A) - l1 * Real.sin θ1)
        (Real.sin θ1 * A - l1 * Real.cos θ1) + atan2 A (-l1) = θ1 := by
  have hne : ¬((-l1 : ℝ) = 0 ∧ (-A : ℝ) = 0) := by
    rintro ⟨h, _⟩
    rw [neg_eq_zero] at h
    exact hl1.ne' h
  have hρpos : 0 < Real.sqrt ((-l1) ^ 2 + (-A) ^ 2) :=
    Real.sqrt_pos.mpr (by nlinarith)
  have hρne := hρpos.ne'
  have hcos := cos_atan2 hne
  have hsin := sin_atan2 (-l1) (-A)
  have hx : Real.sin θ1 * A - l1 * Real.cos θ1 =
      Real.sqrt ((-l1) ^ 2 + (-A) ^ 2) *
        Real.cos (θ1 + atan2 (-A) (-l1)) := by
    rw [Real.cos_add, hcos, hsin]
    field_simp
    linear_combination (l1 * Real.cos θ1 - Real.sin θ1 * A) *
      Real.mul_self_sqrt (by positivity : (0 : ℝ) ≤ l1 ^ 2 + A ^ 2)
  have hy : -(Real.cos θ1 * A) - l1 * Real.sin θ1 =
      Real.sqrt ((-l1) ^ 2 + (-A) ^ 2) *
        Real.sin (θ1 + atan2 (-A) (-l1)) := by
    rw [Real.sin_add, hcos, hsin]
    field_simp
    linear_combination (Real.cos θ1 * A + l1 * Real.sin θ1) *
      Real.mul_self_sqrt (by positivity : (0 : ℝ) ≤ l1 ^ 2 + A ^ 2)
  have hneg : atan2 A (-l1) = -atan2 (-A) (-l1) := by
    have h5 := atan2_neg_left (-l1) (neg_ne_zero.mpr hApos.ne')
    rw [neg_neg] at h5
    exact h5
  rw [hx, hy, atan2_polar hρpos hq1, hneg]
  ring

theorem ikine_eval_aux (A B θ1 θ2 θ3 l1 l2 l3 : ℝ) (b : Bool)
    (hl1 : 0 < l1) (hl2 : 0 < l2) (hl3 : 0 < l3)
    (hAB : A ^ 2 + B ^ 2 = l2 ^ 2 + l3 ^ 2 + 2 * l2 * l3 * Real.cos θ3)
    (hAdef : A = Real.cos θ2 * (l2 + l3 * Real.cos θ3) -
      Real.sin θ2 * (l3 * Real.sin θ3))
    (hBdef : B = Real.sin θ2 * (l2 + l3 * Real.cos θ3) +
      Real.cos θ2 * (l3 * Real.sin θ3))
    (hθ3 : θ3 ∈ Set.Ioc (-π) π)
    (hbt : b = true → 0 ≤ Real.sin θ3)
    (hbf : b = false → Real.sin θ3 ≤ 0)
    (hApos : 0 < A)
    (hq2 : θ2 + atan2 (l3 * Real.sin θ3) (l2 + l3 * Real.cos θ3) ∈
      Set.Ioc (-π) π)
    (hq1 : θ1 + atan2 (-A) (-l1) ∈ Set.Ioc (-π) π) :
    ikine (Real.sin θ1 * A - l1 * Real.cos θ1)
      (-(Real.cos θ1 * A) - l1 * Real.sin θ1) B l1 l2 l3 b =
      some (θ1, θ2, θ3) := by
  have h2l : (2 : ℝ) * l2 * l3 ≠ 0 :=
    mul_ne_zero (mul_ne_zero two_ne_zero hl2.ne') hl3.ne'
  have hD : ((Real.sin θ1 * A - l1 * Real.cos θ1) ^ 2 +
      (-(Real.cos θ1 * A) - l1 * Real.sin θ1) ^ 2 + B ^ 2 -
      l1 ^ 2 - l2 ^ 2 - l3 ^ 2) / (2 * l2 * l3) = Real.cos θ3 := by
    rw [div_eq_iff h2l]
    linarith [planar_radius_sq θ1 A l1, hAB]
  have hrad : (Real.sin θ1 * A - l1 * Real.cos θ1) ^ 2 +
      (-(Real.cos θ1 * A) - l1 * Real.sin θ1) ^ 2 - l1 ^ 2 = A ^ 2 := by
    linarith [planar_radius_sq θ1 A l1]
  have hpyth : (1 : ℝ) - Real.cos θ3 ^ 2 = Real.sin θ3 ^ 2 := by
    linarith [Real.sin_sq_add_cos_sq θ3]
  have hc1 : ¬((1 : ℝ) - Real.cos θ3 ^ 2 < 0) := by
    rw [hpyth]
    exact not_lt.mpr (sq_nonneg _)
  have hs3 : Real.sqrt (1 - Real.cos θ3 ^ 2) = |Real.sin θ3| := by
    rw [hpyth, Real.sqrt_sq_eq_abs]
  have hc2 : ¬((A : ℝ) ^ 2 < 0) := not_lt.mpr (sq_nonneg _)
  simp only [ikine]
  rw [hD, if_neg hc1, hrad, if_neg hc2, Real.sqrt_sq hApos.le, hs3]
  cases b with
  | false =>
    rw [if_neg (by decide : ¬(false = true)), abs_of_nonpos (hbf rfl), neg_neg,
      atan2_sin_cos hθ3]
    simp only [Option.some.injEq, Prod.mk.injEq]
    refine ⟨atan2_hip θ1 l1 A hl1 hApos hq1, ?_, trivial⟩
    rw [atan2_two_link θ2 θ3 l2 l3 A B hAdef hBdef hApos hq2]
    ring
  | true =>
    rw [if_pos rfl, abs_of_nonneg (hbt rfl), atan2_sin_cos hθ3]
    simp only [Option.some.injEq, Prod.mk.injEq]
    refine ⟨atan2_hip θ1 l1 A hl1 hApos hq1, ?_, trivial⟩
    rw [atan2_two_link θ2 θ3 l2 l3 A B hAdef hBdef hApos hq2]
    ring

/-! ### Claim theorems -/

/-- C1: Round-trip: for every joint triple within the leg's physical range
(knee angle `θ3` in the principal interval `(-π, π]` with bend direction
matching the branch flag, positive radial reach `l2·cos θ2 + l3·cos (θ2+θ3)`,
and hip/upper-leg angle sums inside the principal `(-π, π]` branch) and all
positive link lengths, feeding the translation component of
`t_0_to_4 θ1 θ2 θ3` to `ikine` with the matching branch flag returns the
original triple `(θ1, θ2, θ3)` exactly. -/
theorem fk_ikine_roundtrip (θ1 θ2 θ3 l1 l2 l3 : ℝ) (b : Bool)
    (hl1 : 0 < l1) (hl2 : 0 < l2) (hl3 : 0 < l3)
    (hθ3 : θ3 ∈ Set.Ioc (-π) π)
    (hbt : b = true → 0 ≤ Real.sin θ3)
    (hbf : b = false → Real.sin θ3 ≤ 0)
    (hApos : 0 < l2 * Real.cos θ2 + l3 * Real.cos (θ2 + θ3))
    (hq2 : θ2 + atan2 (l3 * Real.sin θ3) (l2 + l3 * Real.cos θ3) ∈
      Set.Ioc (-π) π)
    (hq1 : θ1 + atan2 (-(l2 * Real.cos θ2 + l3 * Real.cos (θ2 + θ3))) (-l1) ∈
      Set.Ioc (-π) π) :
    ikine (t_0_to_4 θ1 θ2 θ3 l1 l2 l3 0 3) (t_0_to_4 θ1 θ2 θ3 l1 l2 l3 1 3)
      (t_0_to_4 θ1 θ2 θ3 l1 l2 l3 2 3) l1 l2 l3 b = some (θ1, θ2, θ3) := by
  rw [t_0_to_4_x, t_0_to_4_y, t_0_to_4_z]
  exact ikine_eval_aux (l2 * Real.cos θ2 + l3 * Real.cos (θ2 + θ3))
    (l2 * Real.sin θ2 + l3 * Real.sin (θ2 + θ3)) θ1 θ2 θ3 l1 l2 l3 b
    hl1 hl2 hl3 (elbow_radius_sq θ2 θ3 l2 l3)
    (by rw [Real.cos_add]; ring) (by rw [Real.sin_add]; ring)
    hθ3 hbt hbf hApos hq2 hq1

/-- Witness for C1 at `θ1 = 0, θ2 = 0, θ3 = π/2, l1 = l2 = l3 = 1`,
branch flag `true`. -/
theorem fk_ikine_roundtrip_witness :
    ikine (t_0_to_4 0 0 (π / 2) 1 1 1 0 3) (t_0_to_4 0 0 (π / 2) 1 1 1 1 3)
      (t_0_to_4 0 0 (π / 2) 1 1 1 2 3) 1 1 1 true = some (0, 0, π / 2) :=
  fk_ikine_roundtrip 0 0 (π / 2) 1 1 1 true one_pos one_pos one_pos
    (by constructor <;> linarith [Real.pi_pos])
    (fun _ => by norm_num [Real.sin_pi_div_two])
    (fun h => absurd h (by simp))
    (by norm_num [Real.cos_pi_div_two])
    (by rw [zero_add]; exact atan2_mem_Ioc _ _)
    (by rw [zero_add]; exact atan2_mem_Ioc _ _)

/-- C3: Unreachable target is surfaced: whenever `|D| > 1` for the
cosine-law term `D`, `ikine` raises (returns `none`) instead of producing a
numeric angle triple. -/
theorem ikine_unreachable_none (x4 y4 z4 l1 l2 l3 D : ℝ) (b : Bool)
    (hDdef : D = (x4 ^ 2 + y4 ^ 2 + z4 ^ 2 - l1 ^ 2 - l2 ^ 2 - l3 ^ 2) /
      (2 * l2 * l3))
    (hD : 1 < |D|) :
    ikine x4 y4 z4 l1 l2 l3 b = none := by
  have h : 1 - ((x4 ^ 2 + y4 ^ 2 + z4 ^ 2 - l1 ^ 2 - l2 ^ 2 - l3 ^ 2) /
      (2 * l2 * l3)) ^ 2 < 0 := by
    rw [← hDdef]
    nlinarith [sq_abs D, abs_nonneg D]
  simp only [ikine]
  rw [if_pos h]

/-- Witness for C3 at `x4 = y4 = z4 = 0, l1 = l2 = l3 = 1`, where
`D = -3/2`. -/
theorem ikine_unreachable_none_witness : ikine 0 0 0 1 1 1 true = none :=
  ikine_unreachable_none 0 0 0 1 1 1 (-3 / 2) true (by norm_num)
    (by rw [abs_of_nonpos (by norm_num : (-3 / 2 : ℝ) ≤ 0)]; norm_num)

/-- C4: Degenerate radius is surfaced: whenever `x4² + y4² < l1²`, `ikine`
raises (returns `none`) instead of producing joint angles, whichever of the
two square-root checks fires first. -/
theorem ikine_degenerate_none (x4 y4 z4 l1 l2 l3 : ℝ) (b : Bool)
    (h : x4 ^ 2 + y4 ^ 2 < l1 ^ 2) :
    ikine x4 y4 z4 l1 l2 l3 b = none := by
  simp only [ikine]
  split
  · rfl
  · rw [if_pos (by linarith : x4 ^ 2 + y4 ^ 2 - l1 ^ 2 < 0)]

/-- Witness for C4 at `(x4, y4, z4) = (0, 0, 2)`, `l1 = l2 = l3 = 1`: here
`D = 1/2` passes the first check and the degenerate-radius check fires. -/
theorem ikine_degenerate_none_witness : ikine 0 0 2 1 1 1 true = none :=
  ikine_degenerate_none 0 0 2 1 1 1 true (by norm_num)

/-- C9: Boundary well-definedness: when `x4² + y4²` equals `l1²` exactly and
`|D| ≤ 1`, `ikine` succeeds and returns an angle triple (the zero first
`atan2` argument is well defined). -/
theorem ikine_boundary_some (x4 y4 z4 l1 l2 l3 D : ℝ) (b : Bool)
    (hDdef : D = (x4 ^ 2 + y4 ^ 2 + z4 ^ 2 - l1 ^ 2 - l2 ^ 2 - l3 ^ 2) /
      (2 * l2 * l3))
    (hD : |D| ≤ 1) (hb : x4 ^ 2 + y4 ^ 2 = l1 ^ 2) :
    (ikine x4 y4 z4 l1 l2 l3 b).isSome = true := by
  have h1 : ¬(1 - ((x4 ^ 2 + y4 ^ 2 + z4 ^ 2 - l1 ^ 2 - l2 ^ 2 - l3 ^ 2) /
      (2 * l2 * l3)) ^ 2 < 0) := by
    rw [← hDdef]
    nlinarith [sq_abs D, abs_nonneg D]
  have h2 : ¬(x4 ^ 2 + y4 ^ 2 - l1 ^ 2 < 0) := by
    rw [hb]
    norm_num
  simp only [ikine]
  rw [if_neg h1, if_neg h2]
  rfl

/-- Witness for C9 at `(x4, y4, z4) = (1, 0, 1)`, `l1 = l2 = l3 = 1`, where
`x4² + y4² = 1 = l1²` and `D = -1/2`. -/
theorem ikine_boundary_some_witness : (ikine 1 0 1 1 1 1 true).isSome = true :=
  ikine_boundary_some 1 0 1 1 1 1 (-1 / 2) true (by norm_num)
    (by rw [abs_of_nonpos (by norm_num : (-1 / 2 : ℝ) ≤ 0)]; norm_num)
    (by norm_num)

/-- C10: `get_leg_delta_coords` depends only on the first (right-back) foot
target entry: two target 4-tuples agreeing in their first component give the
same result, for every body pose and footprint. -/
theorem get_leg_delta_coords_rb_only (ht_body : Matrix (Fin 4) (Fin 4) ℝ)
    (p q : (ℝ × ℝ × ℝ) × (ℝ × ℝ × ℝ) × (ℝ × ℝ × ℝ) × (ℝ × ℝ × ℝ))
    (l w : ℝ) (h : p.1 = q.1) :
    get_leg_delta_coords ht_body p l w = get_leg_delta_coords ht_body q l w := by
  simp only [get_leg_delta_coords, h]

/-- Witness for C10: two concrete target tuples sharing only the right-back
entry give the same output. -/
theorem get_leg_delta_coords_rb_only_witness :
    get_leg_delta_coords 1 ((1, 2, 3), (4, 5, 6), (7, 8, 9), (10, 11, 12)) 2 1 =
      get_leg_delta_coords 1 ((1, 2, 3), (0, 0, 0), (0, 0, 0), (0, 0, 0)) 2 1 :=
  get_leg_delta_coords_rb_only 1 ((1, 2, 3), (4, 5, 6), (7, 8, 9), (10, 11, 12))
    ((1, 2, 3), (0, 0, 0), (0, 0, 0), (0, 0, 0)) 2 1 rfl

/-- C2 (evaluation): at body pose = identity, `l = 2, w = 1`, all four foot
targets `(0,0,0)`, `get_leg_delta_coords` returns the single homogeneous
4-vector `(1/2, 0, 1, 1)` — the right-back leg's transformed target only,
not a 4-tuple of per-leg 3-vectors as its own docstring promises. -/
theorem get_leg_delta_coords_single_vector :
    get_leg_delta_coords 1 ((0, 0, 0), (0, 0, 0), (0, 0, 0), (0, 0, 0)) 2 1 =
      ![1 / 2, 0, 1, 1] := by
  funext i
  fin_cases i <;>
    simp [get_leg_delta_coords, ht_inverse, t_rightback, npBlock, roty,
      Matrix.mulVec, dotProduct, Fin.sum_univ_four, Real.cos_pi_div_two,
      Real.sin_pi_div_two, Matrix.vecHead, Matrix.vecTail, Function.comp]

/-- C6: Frame placement: with body pose the 4×4 identity, `l = 2, w = 1`, the
translation columns of the four leg-mount transforms are exactly
`(-1, 0, 1/2)`, `(1, 0, 1/2)`, `(1, 0, -1/2)`, `(-1, 0, -1/2)` for
right-back, right-front, left-front, left-back respectively. -/
theorem legmount_translations :
    t_rightback 1 2 1 0 3 = -1 ∧ t_rightback 1 2 1 1 3 = 0 ∧
      t_rightback 1 2 1 2 3 = 1 / 2 ∧
    t_rightfront 1 2 1 0 3 = 1 ∧ t_rightfront 1 2 1 1 3 = 0 ∧
      t_rightfront 1 2 1 2 3 = 1 / 2 ∧
    t_leftfront 1 2 1 0 3 = 1 ∧ t_leftfront 1 2 1 1 3 = 0 ∧
      t_leftfront 1 2 1 2 3 = -(1 / 2) ∧
    t_leftback 1 2 1 0 3 = -1 ∧ t_leftback 1 2 1 1 3 = 0 ∧
      t_leftback 1 2 1 2 3 = -(1 / 2) := by
  refine ⟨?_, ?_, ?_, ?_, ?_, ?_, ?_, ?_, ?_, ?_, ?_, ?_⟩ <;>
    norm_num [t_rightback, t_rightfront, t_leftfront, t_leftback, npBlock,
      roty, Matrix.one_mul]

/-- C7: Forward-kinematics chain: `t_0_to_4` is definitionally the ordered
product `t_0_to_1 · t_1_to_2 · t_2_to_3 · t_3_to_4`; `t_1_to_2` is the fixed
transform with rotation rows `(0,0,-1), (-1,0,0), (0,1,0)` and zero
translation; and `t_0_to_1` carries translation
`(-l1·cos θ1, -l1·sin θ1, 0)`. -/
theorem fk_chain_composition :
    (∀ θ1 θ2 θ3 l1 l2 l3 : ℝ, t_0_to_4 θ1 θ2 θ3 l1 l2 l3 =
      t_0_to_1 θ1 l1 * t_1_to_2 * t_2_to_3 θ2 l2 * t_3_to_4 θ3 l3) ∧
    t_1_to_2 = !![0, 0, -1, 0; -1, 0, 0, 0; 0, 1, 0, 0; 0, 0, 0, 1] ∧
    (∀ θ1 l1 : ℝ, t_0_to_1 θ1 l1 0 3 = -l1 * Real.cos θ1 ∧
      t_0_to_1 θ1 l1 1 3 = -l1 * Real.sin θ1 ∧ t_0_to_1 θ1 l1 2 3 = 0) := by
  refine ⟨fun _ _ _ _ _ _ => rfl, rfl, fun θ1 l1 => ⟨?_, ?_, ?_⟩⟩ <;>
    simp [t_0_to_1, npBlock]

/-! ### Rigid-transform invariant -/

/-- The top-left 3×3 block of a 4×4 homogeneous transform. -/
def rotBlock (T : Matrix (Fin 4) (Fin 4) ℝ) : Matrix (Fin 3) (Fin 3) ℝ :=
  Matrix.of fun i j => T i.castSucc j.castSucc

/-- A 4×4 matrix is a rigid homogeneous transform: orthonormal rotation block
with determinant `+1`, and bottom row `(0, 0, 0, 1)`. -/
def IsRigid (T : Matrix (Fin 4) (Fin 4) ℝ) : Prop :=
  (rotBlock T)ᵀ * rotBlock T = 1 ∧ (rotBlock T).det = 1 ∧
    T 3 0 = 0 ∧ T 3 1 = 0 ∧ T 3 2 = 0 ∧ T 3 3 = 1

theorem finCastSucc_two : Fin.castSucc (2 : Fin 3) = (2 : Fin 4) := rfl

theorem rotBlock_npBlock (R : Matrix (Fin 3) (Fin 3) ℝ) (t : Fin 3 → ℝ) :
    rotBlock (npBlock R t) = R := by
  ext i j
  fin_cases i <;> fin_cases j <;>
    simp [rotBlock, npBlock, finCastSucc_two, Matrix.vecHead, Matrix.vecTail]

theorem rotz_ortho (θ : ℝ) : (rotz θ)ᵀ * rotz θ = 1 := by
  ext i j
  fin_cases i <;> fin_cases j <;>
    simp [rotz, Matrix.mul_apply, Fin.sum_univ_three, Matrix.one_apply,
      Matrix.transpose_apply, Matrix.vecHead, Matrix.vecTail] <;>
    linarith [Real.sin_sq_add_cos_sq θ]

theorem rotz_det (θ : ℝ) : (rotz θ).det = 1 := by
  rw [Matrix.det_fin_three]
  simp [rotz, Matrix.vecHead, Matrix.vecTail]
  linarith [Real.sin_sq_add_cos_sq θ]

theorem roty_ortho (θ : ℝ) : (roty θ)ᵀ * roty θ = 1 := by
  ext i j
  fin_cases i <;> fin_cases j <;>
    simp [roty, Matrix.mul_apply, Fin.sum_univ_three, Matrix.one_apply,
      Matrix.transpose_apply, Matrix.vecHead, Matrix.vecTail] <;>
    linarith [Real.sin_sq_add_cos_sq θ]

theorem roty_det (θ : ℝ) : (roty θ).det = 1 := by
  rw [Matrix.det_fin_three]
  simp [roty, Matrix.vecHead, Matrix.vecTail]
  linarith [Real.sin_sq_add_cos_sq θ]

theorem isRigid_npBlock (R : Matrix (Fin 3) (Fin 3) ℝ) (t : Fin 3 → ℝ)
    (h1 : Rᵀ * R = 1) (h2 : R.det = 1) : IsRigid (npBlock R t) := by
  refine ⟨?_, ?_, ?_, ?_, ?_, ?_⟩
  · rw [rotBlock_npBlock]
    exact h1
  · rw [rotBlock_npBlock]
    exact h2
  · simp [npBlock]
  · simp [npBlock]
  · simp [npBlock, Matrix.vecHead, Matrix.vecTail]
  · simp [npBlock, Matrix.vecHead, Matrix.vecTail]

theorem rotBlock_mul (T S : Matrix (Fin 4) (Fin 4) ℝ)
    (h0 : S 3 0 = 0) (h1 : S 3 1 = 0) (h2 : S 3 2 = 0) :
    rotBlock (T * S) = rotBlock T * rotBlock S := by
  ext i j
  fin_cases i <;> fin_cases j <;>
    simp [rotBlock, Matrix.mul_apply, Fin.sum_univ_four, Fin.sum_univ_three,
      h0, h1, h2, finCastSucc_two]

theorem IsRigid.mul {T S : Matrix (Fin 4) (Fin 4) ℝ}
    (hT : IsRigid T) (hS : IsRigid S) : IsRigid (T * S) := by
  obtain ⟨hT1, hT2, hT30, hT31, hT32, hT33⟩ := hT
  obtain ⟨hS1, hS2, hS30, hS31, hS32, hS33⟩ := hS
  have hrb := rotBlock_mul T S hS30 hS31 hS32
  refine ⟨?_, ?_, ?_, ?_, ?_, ?_⟩
  · rw [hrb, Matrix.transpose_mul, Matrix.mul_assoc,
      ← Matrix.mul_assoc (rotBlock T)ᵀ, hT1, Matrix.one_mul, hS1]
  · rw [hrb, Matrix.det_mul, hT2, hS2, one_mul]
  · simp [Matrix.mul_apply, Fin.sum_univ_four, hT30, hT31, hT32, hT33, hS30]
  · simp [Matrix.mul_apply, Fin.sum_univ_four, hT30, hT31, hT32, hT33, hS31]
  · simp [Matrix.mul_apply, Fin.sum_univ_four, hT30, hT31, hT32, hT33, hS32]
  · simp [Matrix.mul_apply, Fin.sum_univ_four, hT30, hT31, hT32, hT33, hS33]

theorem isRigid_one : IsRigid (1 : Matrix (Fin 4) (Fin 4) ℝ) := by
  have hrb : rotBlock (1 : Matrix (Fin 4) (Fin 4) ℝ) = 1 := by
    ext i j
    fin_cases i <;> fin_cases j <;>
      simp [rotBlock, Matrix.one_apply, finCastSucc_two]
  refine ⟨?_, ?_, ?_, ?_, ?_, ?_⟩ <;>
    simp [hrb, Matrix.one_apply]

/-- C8: Rigid-transform invariant: every matrix produced by `t_0_to_1`,
`t_1_to_2`, `t_2_to_3`, `t_3_to_4` (for any angle and link length), and by
the four leg-mount placement functions whenever the input body pose is a
valid rigid transform, has an orthonormal rotation block of determinant `+1`
and bottom row `(0, 0, 0, 1)`. -/
theorem rigid_transform_invariant :
    (∀ θ l : ℝ, IsRigid (t_0_to_1 θ l)) ∧ IsRigid t_1_to_2 ∧
    (∀ θ l : ℝ, IsRigid (t_2_to_3 θ l)) ∧ (∀ θ l : ℝ, IsRigid (t_3_to_4 θ l)) ∧
    (∀ (tm : Matrix (Fin 4) (Fin 4) ℝ) (l w : ℝ), IsRigid tm →
      IsRigid (t_rightback tm l w)) ∧
    (∀ (tm : Matrix (Fin 4) (Fin 4) ℝ) (l w : ℝ), IsRigid tm →
      IsRigid (t_rightfront tm l w)) ∧
    (∀ (tm : Matrix (Fin 4) (Fin 4) ℝ) (l w : ℝ), IsRigid tm →
      IsRigid (t_leftfront tm l w)) ∧
    (∀ (tm : Matrix (Fin 4) (Fin 4) ℝ) (l w : ℝ), IsRigid tm →
      IsRigid (t_leftback tm l w)) := by
  have h12 : IsRigid t_1_to_2 := by
    have h : t_1_to_2 = npBlock !![0, 0, -1; -1, 0, 0; 0, 1, 0] ![0, 0, 0] := by
      ext i j
      fin_cases i <;> fin_cases j <;>
        simp [t_1_to_2, npBlock, Matrix.vecHead, Matrix.vecTail]
    rw [h]
    refine isRigid_npBlock _ _ ?_ ?_
    · ext i j
      fin_cases i <;> fin_cases j <;>
        simp [Matrix.mul_apply, Fin.sum_univ_three, Matrix.one_apply,
          Matrix.transpose_apply, Matrix.vecHead, Matrix.vecTail]
    · rw [Matrix.det_fin_three]
      norm_num [Matrix.vecHead, Matrix.vecTail]
  refine ⟨fun θ l => isRigid_npBlock _ _ (rotz_ortho θ) (rotz_det θ), h12,
    fun θ l => isRigid_npBlock _ _ (rotz_ortho θ) (rotz_det θ),
    fun θ l => isRigid_npBlock _ _ (rotz_ortho θ) (rotz_det θ),
    fun tm l w htm => htm.mul (isRigid_npBlock _ _ (roty_ortho _) (roty_det _)),
    fun tm l w htm => htm.mul (isRigid_npBlock _ _ (roty_ortho _) (roty_det _)),
    fun tm l w htm => htm.mul (isRigid_npBlock _ _ (roty_ortho _) (roty_det _)),
    fun tm l w htm => htm.mul (isRigid_npBlock _ _ (roty_ortho _) (roty_det _))⟩

/-- Witness for C8: the identity body pose is rigid, and so is the
right-back mount frame computed from it. -/
theorem rigid_transform_invariant_witness :
    IsRigid (1 : Matrix (Fin 4) (Fin 4) ℝ) ∧ IsRigid (t_rightback 1 2 1) :=
  ⟨isRigid_one, rigid_transform_invariant.2.2.2.2.1 1 2 1 isRigid_one⟩

/-! ### The inverse solver reproduces the target under forward kinematics -/

theorem two_link_polar (α φ q3 ρ r z u v l2 l3 c s : ℝ)
    (hρpos : 0 < ρ)
    (hρsq : ρ ^ 2 = r ^ 2 + z ^ 2)
    (huv : u ^ 2 + v ^ 2 = r ^ 2 + z ^ 2)
    (hcα : Real.cos α = r / ρ) (hsα : Real.sin α = z / ρ)
    (hcφ : Real.cos φ = u / ρ) (hsφ : Real.sin φ = v / ρ)
    (hc3 : Real.cos q3 = c) (hs3 : Real.sin q3 = s)
    (hu : u = l2 + l3 * c) (hv : v = l3 * s) :
    l2 * Real.cos (α - φ) + l3 * Real.cos (α - φ + q3) = r ∧
    l2 * Real.sin (α - φ) + l3 * Real.sin (α - φ + q3) = z := by
  have hρne := hρpos.ne'
  subst hu hv
  constructor
  · rw [Real.cos_add, Real.sin_sub, Real.cos_sub, hcα, hsα, hcφ, hsφ, hc3, hs3]
    field_simp
    linear_combination r * huv - r * hρsq
  · rw [Real.sin_add, Real.sin_sub, Real.cos_sub, hcα, hsα, hcφ, hsφ, hc3, hs3]
    field_simp
    linear_combination z * huv - z * hρsq

theorem hip_polar (β γ ρ r x y l1 : ℝ)
    (hρpos : 0 < ρ)
    (hρsq : ρ ^ 2 = x ^ 2 + y ^ 2)
    (hrl : r ^ 2 + l1 ^ 2 = x ^ 2 + y ^ 2)
    (hcβ : Real.cos β = x / ρ) (hsβ : Real.sin β = y / ρ)
    (hcγ : Real.cos γ = -l1 / ρ) (hsγ : Real.sin γ = r / ρ) :
    Real.sin (β + γ) * r - l1 * Real.cos (β + γ) = x ∧
    -(Real.cos (β + γ) * r) - l1 * Real.sin (β + γ) = y := by
  have hρne := hρpos.ne'
  constructor
  · rw [Real.sin_add, Real.cos_add, hcβ, hsβ, hcγ, hsγ]
    field_simp
    linear_combination x * ρ ^ 2 * hrl - x * ρ ^ 2 * hρsq
  · rw [Real.cos_add, Real.sin_add, hcβ, hsβ, hcγ, hsγ]
    field_simp
    linear_combination y * ρ ^ 6 * hrl - y * ρ ^ 6 * hρsq

theorem ikine_fk_branch (x y z l1 l2 l3 D s : ℝ) (b : Bool)
    (hl1 : 0 < l1) (hl2 : 0 < l2) (hl3 : 0 < l3)
    (hDdef : D = (x ^ 2 + y ^ 2 + z ^ 2 - l1 ^ 2 - l2 ^ 2 - l3 ^ 2) /
      (2 * l2 * l3))
    (hD : |D| < 1) (hr : l1 ^ 2 ≤ x ^ 2 + y ^ 2)
    (hs : s = (if b then Real.sqrt (1 - D ^ 2) else -Real.sqrt (1 - D ^ 2))) :
    ∃ a1 a2 : ℝ, ikine x y z l1 l2 l3 b = some (a1, a2, atan2 s D) ∧
      t_0_to_4 a1 a2 (atan2 s D) l1 l2 l3 0 3 = x ∧
      t_0_to_4 a1 a2 (atan2 s D) l1 l2 l3 1 3 = y ∧
      t_0_to_4 a1 a2 (atan2 s D) l1 l2 l3 2 3 = z := by
  have hD2 : D ^ 2 < 1 := by nlinarith [sq_abs D, abs_nonneg D]
  have h1D : (0 : ℝ) < 1 - D ^ 2 := by linarith
  have hs2 : s ^ 2 = 1 - D ^ 2 := by
    cases b <;> rw [hs] <;> simp only [if_true, if_false, Bool.false_eq_true,
      Bool.true_eq_false, ite_true, ite_false, neg_sq] <;>
      exact Real.sq_sqrt h1D.le
  have hDs : D ^ 2 + s ^ 2 = 1 := by rw [hs2]; ring
  have hx2 : (0 : ℝ) < x ^ 2 + y ^ 2 := lt_of_lt_of_le (pow_pos hl1 2) hr
  have hrnon : (0 : ℝ) ≤ x ^ 2 + y ^ 2 - l1 ^ 2 := by linarith
  have hr2 : Real.sqrt (x ^ 2 + y ^ 2 - l1 ^ 2) ^ 2 = x ^ 2 + y ^ 2 - l1 ^ 2 :=
    Real.sq_sqrt hrnon
  have hDden : 2 * l2 * l3 * D =
      x ^ 2 + y ^ 2 + z ^ 2 - l1 ^ 2 - l2 ^ 2 - l3 ^ 2 := by
    rw [hDdef]
    field_simp
  have hrz : Real.sqrt (x ^ 2 + y ^ 2 - l1 ^ 2) ^ 2 + z ^ 2 =
      l2 ^ 2 + l3 ^ 2 + 2 * l2 * l3 * D := by
    rw [hr2, hDden]
    ring
  have hrzpos : (0 : ℝ) < Real.sqrt (x ^ 2 + y ^ 2 - l1 ^ 2) ^ 2 + z ^ 2 := by
    rw [hrz]
    nlinarith [mul_pos hl2 hl3, (abs_lt.mp hD).1, sq_nonneg (l2 - l3)]
  have hc1 : ¬((1 : ℝ) - D ^ 2 < 0) := by linarith
  have hc2 : ¬(x ^ 2 + y ^ 2 - l1 ^ 2 < 0) := by linarith
  simp only [ikine]
  rw [← hDdef, if_neg hc1, if_neg hc2]
  have hq3 : (if b = true then atan2 (Real.sqrt (1 - D ^ 2)) D
      else atan2 (-Real.sqrt (1 - D ^ 2)) D) = atan2 s D := by
    cases b <;> rw [hs] <;> simp
  rw [hq3]
  have hq3ne : ¬(D = 0 ∧ s = 0) := by
    rintro ⟨h1, h2⟩
    rw [h1, h2] at hDs
    norm_num at hDs
  have habs : Real.sqrt (D ^ 2 + s ^ 2) = 1 := by rw [hDs, Real.sqrt_one]
  have hcos3 : Real.cos (atan2 s D) = D := by
    rw [cos_atan2 hq3ne, habs, div_one]
  have hsin3 : Real.sin (atan2 s D) = s := by
    rw [sin_atan2, habs, div_one]
  rw [hcos3, hsin3]
  have huv : (l2 + l3 * D) ^ 2 + (l3 * s) ^ 2 =
      Real.sqrt (x ^ 2 + y ^ 2 - l1 ^ 2) ^ 2 + z ^ 2 := by
    rw [hrz]
    linear_combination l3 ^ 2 * hDs
  have hρ2 : (0 : ℝ) <
      Real.sqrt (Real.sqrt (x ^ 2 + y ^ 2 - l1 ^ 2) ^ 2 + z ^ 2) :=
    Real.sqrt_pos.mpr hrzpos
  have hαne : ¬(Real.sqrt (x ^ 2 + y ^ 2 - l1 ^ 2) = 0 ∧ z = 0) := by
    rintro ⟨h1, h2⟩
    rw [h1, h2] at hrzpos
    norm_num at hrzpos
  have hcα := cos_atan2 hαne
  have hsα := sin_atan2 (Real.sqrt (x ^ 2 + y ^ 2 - l1 ^ 2)) z
  have hφne : ¬(l2 + l3 * D = 0 ∧ l3 * s = 0) := by
    rintro ⟨h1, h2⟩
    rw [h1, h2] at huv
    norm_num at huv
    linarith [hrzpos, huv]
  have hcφ := cos_atan2 hφne
  have hsφ := sin_atan2 (l2 + l3 * D) (l3 * s)
  have hden : Real.sqrt ((l2 + l3 * D) ^ 2 + (l3 * s) ^ 2) =
      Real.sqrt (Real.sqrt (x ^ 2 + y ^ 2 - l1 ^ 2) ^ 2 + z ^ 2) := by
    rw [huv]
  rw [hden] at hcφ hsφ
  obtain ⟨hA2, hB2⟩ := two_link_polar
    (atan2 z (Real.sqrt (x ^ 2 + y ^ 2 - l1 ^ 2)))
    (atan2 (l3 * s) (l2 + l3 * D)) (atan2 s D)
    (Real.sqrt (Real.sqrt (x ^ 2 + y ^ 2 - l1 ^ 2) ^ 2 + z ^ 2))
    (Real.sqrt (x ^ 2 + y ^ 2 - l1 ^ 2)) z (l2 + l3 * D) (l3 * s) l2 l3 D s
    hρ2 (Real.sq_sqrt hrzpos.le) huv hcα hsα hcφ hsφ hcos3 hsin3 rfl rfl
  have hβne : ¬(x = 0 ∧ y = 0) := by
    rintro ⟨h1, h2⟩
    rw [h1, h2] at hx2
    norm_num at hx2
  have hγne : ¬((-l1 : ℝ) = 0 ∧ Real.sqrt (x ^ 2 + y ^ 2 - l1 ^ 2) = 0) := by
    rintro ⟨h1, _⟩
    rw [neg_eq_zero] at h1
    exact hl1.ne' h1
  have hρ1 : (0 : ℝ) < Real.sqrt (x ^ 2 + y ^ 2) := Real.sqrt_pos.mpr hx2
  have hcβ := cos_atan2 hβne
  have hsβ := sin_atan2 x y
  have hcγ := cos_atan2 hγne
  have hsγ := sin_atan2 (-l1) (Real.sqrt (x ^ 2 + y ^ 2 - l1 ^ 2))
  have hden2 : Real.sqrt ((-l1) ^ 2 + Real.sqrt (x ^ 2 + y ^ 2 - l1 ^ 2) ^ 2) =
      Real.sqrt (x ^ 2 + y ^ 2) := by
    rw [hr2]
    congr 1
    ring
  rw [hden2] at hcγ hsγ
  obtain ⟨hx4, hy4⟩ := hip_polar (atan2 y x)
    (atan2 (Real.sqrt (x ^ 2 + y ^ 2 - l1 ^ 2)) (-l1))
    (Real.sqrt (x ^ 2 + y ^ 2)) (Real.sqrt (x ^ 2 + y ^ 2 - l1 ^ 2)) x y l1
    hρ1 (Real.sq_sqrt hx2.le) (by rw [hr2]; ring) hcβ hsβ hcγ hsγ
  refine ⟨_, _, rfl, ?_, ?_, ?_⟩
  · rw [t_0_to_4_x, hA2]
    exact hx4
  · rw [t_0_to_4_y, hA2]
    exact hy4
  · rw [t_0_to_4_z]
    exact hB2

/-- C5: Branch selection: for every reachable target (`|D| < 1` and
`x² + y² ≥ l1²`), `ikine` with flag `true` returns
`q3 = atan2(+sqrt(1-D²), D)` and with flag `false` returns
`q3 = atan2(-sqrt(1-D²), D)`; the two knee angles are distinct, and both
returned triples reproduce the same foot point under the forward kinematics
`t_0_to_4`. -/
theorem ikine_branch_selection (x y z l1 l2 l3 D : ℝ)
    (hl1 : 0 < l1) (hl2 : 0 < l2) (hl3 : 0 < l3)
    (hDdef : D = (x ^ 2 + y ^ 2 + z ^ 2 - l1 ^ 2 - l2 ^ 2 - l3 ^ 2) /
      (2 * l2 * l3))
    (hD : |D| < 1) (hr : l1 ^ 2 ≤ x ^ 2 + y ^ 2) :
    ∃ a1 a2 b1 b2 : ℝ,
      ikine x y z l1 l2 l3 true =
        some (a1, a2, atan2 (Real.sqrt (1 - D ^ 2)) D) ∧
      ikine x y z l1 l2 l3 false =
        some (b1, b2, atan2 (-Real.sqrt (1 - D ^ 2)) D) ∧
      atan2 (Real.sqrt (1 - D ^ 2)) D ≠ atan2 (-Real.sqrt (1 - D ^ 2)) D ∧
      (t_0_to_4 a1 a2 (atan2 (Real.sqrt (1 - D ^ 2)) D) l1 l2 l3 0 3 = x ∧
        t_0_to_4 a1 a2 (atan2 (Real.sqrt (1 - D ^ 2)) D) l1 l2 l3 1 3 = y ∧
        t_0_to_4 a1 a2 (atan2 (Real.sqrt (1 - D ^ 2)) D) l1 l2 l3 2 3 = z) ∧
      (t_0_to_4 b1 b2 (atan2 (-Real.sqrt (1 - D ^ 2)) D) l1 l2 l3 0 3 = x ∧
        t_0_to_4 b1 b2 (atan2 (-Real.sqrt (1 - D ^ 2)) D) l1 l2 l3 1 3 = y ∧
        t_0_to_4 b1 b2 (atan2 (-Real.sqrt (1 - D ^ 2)) D) l1 l2 l3 2 3 = z) := by
  obtain ⟨a1, a2, hT, hTx, hTy, hTz⟩ := ikine_fk_branch x y z l1 l2 l3 D
    (Real.sqrt (1 - D ^ 2)) true hl1 hl2 hl3 hDdef hD hr (by simp)
  obtain ⟨b1, b2, hF, hFx, hFy, hFz⟩ := ikine_fk_branch x y z l1 l2 l3 D
    (-Real.sqrt (1 - D ^ 2)) false hl1 hl2 hl3 hDdef hD hr (by simp)
  have h1D : (0 : ℝ) < 1 - D ^ 2 := by nlinarith [sq_abs D, abs_nonneg D]
  have hspos : 0 < Real.sqrt (1 - D ^ 2) := Real.sqrt_pos.mpr h1D
  have hne : atan2 (Real.sqrt (1 - D ^ 2)) D ≠
      atan2 (-Real.sqrt (1 - D ^ 2)) D := by
    intro heq
    have hsq : Real.sqrt (1 - D ^ 2) ^ 2 = 1 - D ^ 2 := Real.sq_sqrt h1D.le
    have h2 := congrArg Real.sin heq
    rw [sin_atan2, sin_atan2, neg_sq, hsq,
      show D ^ 2 + (1 - D ^ 2) = 1 from by ring, Real.sqrt_one, div_one,
      div_one] at h2
    linarith
  exact ⟨a1, a2, b1, b2, hT, hF, hne, ⟨hTx, hTy, hTz⟩, ⟨hFx, hFy, hFz⟩⟩

/-- Witness for C5 at target `(1, 1, 1)` with `l1 = l2 = l3 = 1`, where
`D = 0`. -/
theorem ikine_branch_selection_witness :
    ∃ a1 a2 b1 b2 : ℝ,
      ikine 1 1 1 1 1 1 true =
        some (a1, a2, atan2 (Real.sqrt (1 - (0 : ℝ) ^ 2)) 0) ∧
      ikine 1 1 1 1 1 1 false =
        some (b1, b2, atan2 (-Real.sqrt (1 - (0 : ℝ) ^ 2)) 0) ∧
      atan2 (Real.sqrt (1 - (0 : ℝ) ^ 2)) 0 ≠
        atan2 (-Real.sqrt (1 - (0 : ℝ) ^ 2)) 0 ∧
      (t_0_to_4 a1 a2 (atan2 (Real.sqrt (1 - (0 : ℝ) ^ 2)) 0) 1 1 1 0 3 = 1 ∧
        t_0_to_4 a1 a2 (atan2 (Real.sqrt (1 - (0 : ℝ) ^ 2)) 0) 1 1 1 1 3 = 1 ∧
        t_0_to_4 a1 a2 (atan2 (Real.sqrt (1 - (0 : ℝ) ^ 2)) 0) 1 1 1 2 3 = 1) ∧
      (t_0_to_4 b1 b2 (atan2 (-Real.sqrt (1 - (0 : ℝ) ^ 2)) 0) 1 1 1 0 3 = 1 ∧
        t_0_to_4 b1 b2 (atan2 (-Real.sqrt (1 - (0 : ℝ) ^ 2)) 0) 1 1 1 1 3 = 1 ∧
        t_0_to_4 b1 b2 (atan2 (-Real.sqrt (1 - (0 : ℝ) ^ 2)) 0) 1 1 1 2 3 = 1) :=
  ikine_branch_selection 1 1 1 1 1 1 0 one_pos one_pos one_pos (by norm_num)
    (by norm_num) (by norm_num)

end

end SpotMicro
